import Mathlib

/-!
Verification of the beets-extrafiles plugin (`beetsplug/extrafiles.py`).

Paths are modelled as strings whose components are separated by a slash,
and the filesystem as an association list from paths to file identifiers
(the device+inode pair collapsed into one number).  Pure string and path
helpers are implemented over `List Char` so that everything evaluates by
kernel reduction.  Host primitives that live outside this repository
(the beets utility library, the mediafile type table, the template engine)
are either taken as parameters or modelled from the spec, as noted on each
definition.
-/

/-! ## String and path helpers -/

/-- Split a character list at every occurrence of the separator, keeping
empty components, like `str.split`. -/
def splitSep (sep : Char) : List Char → List (List Char)
  | [] => [[]]
  | a :: as =>
    if a = sep then [] :: splitSep sep as
    else
      match splitSep sep as with
      | [] => [[a]]
      | g :: gs => (a :: g) :: gs

/-- The final component of a slash-separated path, as in `pathlib.PurePath.name`. -/
def baseNameChars (p : List Char) : List Char := (splitSep '/' p).getLastD []

/-- The final component of a slash-separated path, as a string. -/
def baseName (p : String) : String := String.mk (baseNameChars p.data)

/-- Index of the last dot in a character list, if any (Python `str.rfind`). -/
def lastDotIdx (l : List Char) : Option Nat :=
  ((List.range l.length).filter (fun i => l.getD i ' ' = '.')).getLast?

/-- The extension of a final path component, as in `pathlib.PurePath.suffix`:
the part of the name from its last dot on, provided that dot is neither the
first nor the last character of the name. -/
def suffixChars (name : List Char) : List Char :=
  match lastDotIdx name with
  | some k => if 0 < k && k + 1 < name.length then name.drop k else []
  | none => []

/-- `pathlib.PurePath.suffix` on a slash-separated path string. -/
def pathSuffix (p : String) : String := String.mk (suffixChars (baseNameChars p.data))

/-- `pathlib.PurePath.stem`: the final component without its suffix. -/
def pathStem (p : String) : String :=
  (baseName p).dropRight (pathSuffix p).length

/-- The string form of `dest_path.parent / dest_path.stem` from
`get_destination`: the path without its final component, joined with the
stem.  A single-component path has parent `"."`, and `"." / stem` is just
the stem. -/
def parentSlashStem (p : String) : String :=
  let parts := splitSep '/' p.data
  if parts.length ≤ 1 then pathStem p
  else String.mk (List.intercalate ['/'] parts.dropLast) ++ "/" ++ pathStem p

/-- Characters the host's path sanitizer treats as unsafe in a component. -/
def badPathChars : List Char := ['\\', ':', '*', '?', '"', '<', '>', '|']

/-- Strip leading and trailing whitespace from a character list. -/
def trimChars (l : List Char) : List Char :=
  ((l.dropWhile Char.isWhitespace).reverse.dropWhile Char.isWhitespace).reverse

/-- Modelled from the spec: one component of the host path sanitizer
(`beets.util.sanitize_path`, not part of this repository): forbidden
characters are replaced consistently and leading/trailing whitespace is
trimmed. -/
def sanitizeComponent (l : List Char) : List Char :=
  trimChars (l.map (fun c => if c ∈ badPathChars then '_' else c))

/-- Modelled from the spec: the host path sanitizer
(`beets.util.sanitize_path`), applied per path component. -/
def sanitizePath (p : String) : String :=
  String.mk (List.intercalate ['/'] ((splitSep '/' p.data).map sanitizeComponent))

/-! ## Template substitution and destination resolution -/

/-- Characters allowed in a `$field` identifier of the host template
language. -/
def isIdentChar (c : Char) : Bool := c.isAlphanum || c = '_'

/-- Replace path separators by the host's separator replacement `"_"`,
as the host's formatted mapping does for path-destined values. -/
def replaceSep (s : String) : String :=
  String.mk (s.data.map (fun c => if c = '/' then '_' else c))

/-- `FormattedExtraFileMapping.__getitem__`: the `albumpath` value is
rendered raw, with its path separators preserved; every other value goes
through the host's formatted mapping, which (modelled from the spec)
replaces path separators so that opaque fields never leak separators. -/
def formattedGet (mapping : List (String × String)) (key : String) : Option String :=
  match mapping.lookup key with
  | none => none
  | some v => if key = "albumpath" then some v else some (replaceSep v)

/-- Modelled from the spec: the host template engine substitutes `$name`
tokens in a template using a field mapping; a token whose name is not in
the mapping is left as literal text.  The recursion is structural on a
fuel argument; fuel equal to the template length always suffices, since
each step consumes at least one character. -/
def substChars (lookup : String → Option String) : Nat → List Char → List Char
  | 0, l => l
  | _ + 1, [] => []
  | fuel + 1, c :: rest =>
    if c = '$' then
      match lookup (String.mk (rest.takeWhile isIdentChar)) with
      | some v => v.data ++ substChars lookup fuel (rest.dropWhile isIdentChar)
      | none => c :: substChars lookup fuel rest
    else c :: substChars lookup fuel rest

/-- Modelled from the spec: template evaluation against a field mapping. -/
def substituteTemplate (lookup : String → Option String) (t : String) : String :=
  String.mk (substChars lookup t.data.length t.data)

/-- The fallback template used when no path format matches the category. -/
def defaultTemplate : String := "$albumpath/$filename"

/-- `ExtraFilesPlugin.get_destination`: sanitize the relative path, build
the field mapping (the caller's metadata plus `basename` and `filename`),
pick the first configured path format whose query equals the category
(falling back to the default template), evaluate the template, and append
the original file's suffix. -/
def getDestination (pathFormats : List (String × String)) (path : String)
    (category : String) (meta : List (String × String)) : String :=
  let destPath := sanitizePath path
  let mapping := meta ++ [("basename", baseName destPath), ("filename", parentSlashStem destPath)]
  let tmpl :=
    match pathFormats.find? (fun qt => qt.1 == category) with
    | some qt => qt.2
    | none => defaultTemplate
  substituteTemplate (formattedGet mapping) tmpl ++ pathSuffix destPath

/-! ## Pattern matching -/

/-- A value of the configured pattern table: either a bare string or a
list of glob pattern strings. -/
inductive Patterns where
  | single (s : String)
  | several (l : List String)
deriving DecidableEq

/-- The sequence of pattern strings the source iterates over for one
category: `for pattern in patterns` iterates a list element-wise, but a
bare string character-wise.  The source's `patterns = [ patterns ]`
rebinding happens after iteration over the string has begun, so it never
affects the iterator. -/
def patternSeq : Patterns → List String
  | .single s => s.data.map String.singleton
  | .several l => l

/-- The body of `ExtraFilesPlugin.match_patterns` once the scanned-set
guard has passed: for every category and every iterated pattern, glob it
under the source directory, drop the defensive `"."`/`".."` results, and
drop any file whose extension (without the leading dot) is one of the
host's registered media types.  The filesystem glob and the media type
table are host collaborators, taken as parameters. -/
def scanMatches (glob : String → String → List String) (mediaTypes : List String)
    (table : List (String × Patterns)) (source : String) : List (String × String) :=
  table.flatMap (fun cp =>
    (patternSeq cp.2).flatMap (fun pat =>
      (glob source pat).filterMap (fun path =>
        if path = "." || path = ".." then none
        else
          let ext := pathSuffix path
          if 1 < ext.length && decide (ext.drop 1 ∈ mediaTypes) then none
          else some (path, cp.1))))

/-- `ExtraFilesPlugin.match_patterns`, with its generator run to
exhaustion: an already scanned source yields nothing and leaves the
scanned set unchanged; otherwise the scan results are produced and the
source is added to the scanned set. -/
def matchPatterns (glob : String → String → List String) (mediaTypes : List String)
    (table : List (String × Patterns)) (source : String) (skip : List String) :
    List (String × String) × List String :=
  if source ∈ skip then ([], skip)
  else (scanMatches glob mediaTypes table source, skip ++ [source])

/-- One run's sequence of `match_patterns` calls: `gather_files` calls
`match_patterns` once per album group, across the five operation-kind
passes of `on_cli_exit`, threading the single plugin-wide scanned set
through every call.  The list of source directories is the concatenation
of the groups' source directories over all passes, in call order. -/
def runMatches (glob : String → String → List String) (mediaTypes : List String)
    (table : List (String × Patterns)) :
    List String → List String → List (List (String × String)) × List String
  | [], skip => ([], skip)
  | s :: rest, skip =>
    let first := matchPatterns glob mediaTypes table s skip
    let later := runMatches glob mediaTypes table rest first.2
    (first.1 :: later.1, later.2)

/-! ## Album grouping -/

/-- The fields of a transferred track used by this plugin. -/
structure Item where
  artist : String
  albumartist : String
  album : String
deriving DecidableEq

/-- One accumulated transfer record: the item with its source and
destination path. -/
abbrev ItemOp := Item × String × String

/-- The grouping key of `gather_files.group`: the album artist when it is
non-empty (Python truthiness of `item.albumartist or item.artist`),
otherwise the artist, paired with the album. -/
def groupKey (t : ItemOp) : String × String :=
  ((if t.1.albumartist = "" then t.1.artist else t.1.albumartist), t.1.album)

/-- Lexicographic comparison of character lists by code point, as Python
compares strings. -/
def charListLt : List Char → List Char → Bool
  | [], [] => false
  | [], _ :: _ => true
  | _ :: _, [] => false
  | a :: as, b :: bs =>
    if a.toNat < b.toNat then true
    else if b.toNat < a.toNat then false
    else charListLt as bs

/-- Python string comparison. -/
def strLtB (a b : String) : Bool := charListLt a.data b.data

/-- Python tuple comparison `key a <= key b` on the grouping keys. -/
def keyLeB (a b : String × String) : Bool :=
  strLtB a.1 b.1 || (a.1 == b.1 && !strLtB b.2 a.2)

/-- Insert an element into a list, before the first element it compares
less-or-equal to. -/
def insertLe (le : α → α → Bool) (a : α) : List α → List α
  | [] => [a]
  | b :: bs => if le a b then a :: b :: bs else b :: insertLe le a bs

/-- Stable insertion sort by a boolean comparison; on the total preorder
`keyLeB` this produces the same ordering as Python's stable `sorted`. -/
def sortByLe (le : α → α → Bool) : List α → List α
  | [] => []
  | a :: as => insertLe le a (sortByLe le as)

/-- `sorted(itemops, key=group)` from `gather_files`. -/
def sortedItemops (l : List ItemOp) : List ItemOp :=
  sortByLe (fun a b => keyLeB (groupKey a) (groupKey b)) l

/-- `itertools.groupby`: split a list into maximal runs of consecutive
elements with equal keys. -/
def groupRuns (k : α → κ) [DecidableEq κ] : List α → List (List α)
  | [] => []
  | a :: rest =>
    match groupRuns k rest with
    | [] => [[a]]
    | [] :: gs => [a] :: gs
    | (b :: g) :: gs =>
      if k a = k b then (a :: b :: g) :: gs else [a] :: (b :: g) :: gs

/-- The grouping stage of `gather_files`: sort the accumulated transfer
records by the grouping key, then split into runs of equal keys. -/
def gatherGroups (l : List ItemOp) : List (List ItemOp) :=
  groupRuns groupKey (sortedItemops l)

/-! ## File operation engine -/

/-- The host's move-operation enumeration (`beets.util.MoveOperation`). -/
inductive MoveOperation where
  | move
  | copy
  | link
  | hardlink
  | reflink
  | reflinkAuto
deriving DecidableEq

/-- Whether `_handle_file` has a `copy_function` branch for the operation;
`reflinkAuto` has none and falls into the `NotImplementedError` case. -/
def hasMoveFunction : MoveOperation → Bool
  | .move => true
  | .copy => true
  | .link => true
  | .hardlink => true
  | .reflink => true
  | .reflinkAuto => false

/-- The filesystem: an association list from paths to file identifiers
(device+inode).  Directories are not modelled separately. -/
abbrev FS := List (String × Nat)

/-- `Path.exists`. -/
def fsExists (fs : FS) (p : String) : Bool := (fs.lookup p).isSome

/-- `Path.samefile`: both paths exist and carry the same device+inode
identifier. -/
def sameFileB (fs : FS) (p q : String) : Bool :=
  match fs.lookup p, fs.lookup q with
  | some a, some b => a == b
  | _, _ => false

/-- A recorded invocation of a host filesystem primitive. -/
inductive PrimCall where
  | mkdirall (dest : String)
  | perform (op : MoveOperation) (path dest : String)
deriving DecidableEq

/-- A log line emitted by the plugin, by kind. -/
inductive LogEntry where
  | infoOperation (op : MoveOperation) (path dest : String)
  | infoSameFile (path dest : String)
  | warnMissingSource (path : String)
  | warnDestExists (dest : String)
  | warnFailed (path dest : String)
deriving DecidableEq

/-- An exception escaping a per-file action: the domain
`FilesystemError`, an OS error raised outside the wrapped region (such as
`samefile` on a vanished path), or the `NotImplementedError` for an
operation without a primitive. -/
inductive HandleErr where
  | filesystemError (op : MoveOperation) (path dest : String)
  | uncaughtOSError (path : String)
  | notImplementedError (op : MoveOperation)
deriving DecidableEq

/-- Whether `except FilesystemError` catches the exception. -/
def isFilesystemErrorB : HandleErr → Bool
  | .filesystemError .. => true
  | _ => false

/-- `ExtraFilesPlugin._handle_file`.  `prim` abstracts the dispatched host
primitive (including the recursive directory walk), returning the calls it
performs and the new filesystem, or the error it raises.  An existing
destination is checked first: the same-file case returns successfully with
an info log, performing nothing; otherwise a `FilesystemError` is raised.
Then the `copy_function` dispatch raises `NotImplementedError` for an
operation without a branch, and otherwise runs the primitive.  Log lines
preceding a raised exception are not recorded. -/
def handleFile (prim : FS → MoveOperation → String → String → Except HandleErr (List PrimCall × FS))
    (fs : FS) (path dest : String) (op : MoveOperation) :
    Except HandleErr (List LogEntry × List PrimCall × FS) :=
  if fsExists fs dest then
    if fsExists fs path = false then .error (.uncaughtOSError path)
    else if sameFileB fs path dest then
      .ok ([LogEntry.infoOperation op path dest, LogEntry.infoSameFile path dest], [], fs)
    else .error (.filesystemError op path dest)
  else if hasMoveFunction op = false then .error (.notImplementedError op)
  else
    match prim fs op path dest with
    | .ok r => .ok ([LogEntry.infoOperation op path dest], r.1, r.2)
    | .error e => .error e

/-- Modelled from the spec: the host's make-path-unique helper
(`beets.util.unique_path`, not part of this repository): a path that does
not exist is returned unchanged, otherwise a numeric disambiguating suffix
is appended before the extension until a free path is found. -/
def uniquePath (fs : FS) (p : String) : String :=
  if fsExists fs p = false then p
  else
    let ext := pathSuffix p
    let base := p.dropRight ext.length
    match (List.range (fs.length + 1)).findSome? (fun k =>
      let cand := base ++ "." ++ toString (k + 1) ++ ext
      if fsExists fs cand = false then some cand else none) with
    | some c => c
    | none => p

/-- The outcome of one batch pass: the log lines and primitive calls in
order, the final filesystem, and the uncaught exception that aborted the
pass, if any. -/
structure BatchResult where
  logs : List LogEntry
  calls : List PrimCall
  fs : FS
  err : Option HandleErr
deriving DecidableEq

/-- `ExtraFilesPlugin.process_items`.  `action` abstracts the per-file
callable (`self._copy_file` and friends): it returns the logs and
primitive calls it performs and the new filesystem, or the exception it
raises.  Per entry: a missing source or an already existing destination is
skipped with a warning; otherwise the destination is made unique, its
parent directories are created, and the action runs, with
`FilesystemError` caught and logged per file and every other exception
aborting the pass. -/
def processItems (action : FS → String → String → Except HandleErr (List LogEntry × List PrimCall × FS)) :
    FS → List (String × String) → BatchResult
  | fs, [] => ⟨[], [], fs, none⟩
  | fs, (source, destination) :: rest =>
    if fsExists fs source = false then
      let r := processItems action fs rest
      ⟨LogEntry.warnMissingSource source :: r.logs, r.calls, r.fs, r.err⟩
    else if fsExists fs destination then
      let r := processItems action fs rest
      ⟨LogEntry.warnDestExists destination :: r.logs, r.calls, r.fs, r.err⟩
    else
      let destPath := uniquePath fs destination
      match action fs source destPath with
      | .ok a =>
        let r := processItems action a.2.2 rest
        ⟨a.1 ++ r.logs, PrimCall.mkdirall destPath :: a.2.1 ++ r.calls, r.fs, r.err⟩
      | .error e =>
        if isFilesystemErrorB e then
          let r := processItems action fs rest
          ⟨LogEntry.warnFailed source destPath :: r.logs, PrimCall.mkdirall destPath :: r.calls, r.fs, r.err⟩
        else ⟨[], [PrimCall.mkdirall destPath], fs, some e⟩

/-! ## Concrete instances used to evaluate the model -/

/-- A concrete filesystem glob for a directory `"src"` holding the files
`src/foo.cue` and `src/bar.txt`: the pattern `"*"` matches both files,
while the pattern `"*.cue"` matches only `src/foo.cue`. -/
def exampleGlob : String → String → List String := fun src pat =>
  if src = "src" && pat = "*" then ["src/bar.txt", "src/foo.cue"]
  else if src = "src" && pat = "*.cue" then ["src/foo.cue"]
  else []

/-- A pattern table whose single category holds a bare string pattern. -/
def exampleTable : List (String × Patterns) := [("cue", Patterns.single "*.cue")]

/-- A concrete copy primitive: it records the dispatched call and creates
the destination with a fresh file identifier. -/
def copyPrim : FS → MoveOperation → String → String → Except HandleErr (List PrimCall × FS) :=
  fun fs op p d => .ok ([PrimCall.perform op p d], (d, fs.length + 100) :: fs)

/-- `ExtraFilesPlugin._copy_file` over the concrete copy primitive. -/
def copyAction : FS → String → String → Except HandleErr (List LogEntry × List PrimCall × FS) :=
  fun fs p d => handleFile copyPrim fs p d MoveOperation.copy

/-- A per-file action for the host's sixth operation kind, which
`_handle_file` has no branch for. -/
def autoAction : FS → String → String → Except HandleErr (List LogEntry × List PrimCall × FS) :=
  fun fs p d => handleFile copyPrim fs p d MoveOperation.reflinkAuto

/-- A concrete starting filesystem with two cue sheets. -/
def exampleFs : FS := [("a/f.cue", 1), ("b/f.cue", 2)]

/-! ## Theorems -/

/-- C3: the claim says a bare-string patterns entry is treated as a
one-element sequence, so that the files yielded for the category are
exactly the matches of the whole string as a single glob.  The source
instead iterates the characters of the bare string as separate glob
patterns, because the `patterns = [ patterns ]` rebinding happens only
after iteration over the string has begun.  Evaluated on a directory
holding `foo.cue` and `bar.txt` with the bare pattern `"*.cue"`: the code
yields `bar.txt` (matched by the character pattern `"*"`), while the whole
pattern `"*.cue"` matches only `foo.cue`. -/
theorem matchPatterns_bare_string_iterates_chars :
    matchPatterns exampleGlob ["mp3"] exampleTable "src" [] =
      ([("src/bar.txt", "cue"), ("src/foo.cue", "cue")], ["src"]) ∧
    exampleGlob "src" "*.cue" = ["src/foo.cue"] := by
  constructor
  · decide
  · decide

/-- C7: destination resolution evaluates the category's template against
the field mapping and appends the original extension: a file with relative
path `file.cue`, category `cue` and template `$albumpath/audio` resolves
to the album path followed by `/audio.cue`, for any metadata values. -/
theorem getDestination_cue_roundtrip :
    ∀ ar aa al ap : String,
    getDestination [("cue", "$albumpath/audio")] "file.cue" "cue"
      [("artist", ar), ("albumartist", aa), ("album", al), ("albumpath", ap)] =
      ap ++ "/audio.cue" := by
  intro ar aa al ap
  show String.mk ((ap.data ++ "/audio".data) ++ ".cue".data) = ap ++ "/audio.cue"
  rw [List.append_assoc]
  rfl

/-- A path suffix, as a character list, is either empty or at least two
characters long (the dot and at least one character after it). -/
theorem suffixChars_eq_nil_or_two_le (name : List Char) :
    suffixChars name = [] ∨ 2 ≤ (suffixChars name).length := by
  unfold suffixChars
  split
  · split
    · rename_i k hk
      right
      rw [List.length_drop]
      simp only [Bool.and_eq_true, decide_eq_true_eq] at hk
      omega
    · exact Or.inl rfl
  · exact Or.inl rfl

/-- C6: no file whose extension, without the leading dot, belongs to the
host's registered media type set is ever yielded by the pattern matcher,
for any glob behavior, category, pattern table or scanned set, provided
the media type set does not contain the empty string (as the host's real
set of extensions does not). -/
theorem matchPatterns_excludes_media_types :
    ∀ (glob : String → String → List String) (mediaTypes : List String)
      (table : List (String × Patterns)) (source : String) (skip : List String)
      (pc : String × String),
      "" ∉ mediaTypes →
      pc ∈ (matchPatterns glob mediaTypes table source skip).1 →
      (pathSuffix pc.1).drop 1 ∉ mediaTypes := by
  intro glob mediaTypes table source skip pc hempty hmem
  unfold matchPatterns at hmem
  by_cases hs : source ∈ skip
  · rw [if_pos hs] at hmem
    simp at hmem
  · rw [if_neg hs] at hmem
    simp only [scanMatches, List.mem_flatMap, List.mem_filterMap] at hmem
    obtain ⟨cp, hcp, pat, hpat, path, hpath, heq⟩ := hmem
    split at heq
    · cases heq
    · split at heq
      · cases heq
      · rename_i hcond
        have hpc : pc.1 = path := by
          have := heq
          injection this with h1
          rw [← h1]
        rw [hpc]
        intro hmemty
        rcases suffixChars_eq_nil_or_two_le (baseNameChars path.data) with h0 | h2
        · have hsuf : pathSuffix path = "" := by
            unfold pathSuffix
            rw [h0]
          rw [hsuf] at hmemty
          exact hempty hmemty
        · apply hcond
          have hlen : 1 < (pathSuffix path).length := by
            have : (pathSuffix path).length = (suffixChars (baseNameChars path.data)).length := rfl
            omega
          simp [hlen, hmemty]

/-- C8, first half: on a not-yet-scanned directory, the first call yields
the full scan results; repeating the call on the updated scanned set
yields the empty sequence and leaves the set unchanged.  Second half: on
an already scanned directory, the call yields the empty sequence and
leaves the set unchanged. -/
theorem matchPatterns_idempotent :
    ∀ (glob : String → String → List String) (mediaTypes : List String)
      (table : List (String × Patterns)) (source : String) (skip : List String),
      (source ∉ skip →
        (matchPatterns glob mediaTypes table source skip).1 =
          scanMatches glob mediaTypes table source ∧
        matchPatterns glob mediaTypes table source
            (matchPatterns glob mediaTypes table source skip).2 =
          ([], (matchPatterns glob mediaTypes table source skip).2)) ∧
      (source ∈ skip →
        matchPatterns glob mediaTypes table source skip = ([], skip)) := by
  intro glob mediaTypes table source skip
  constructor
  · intro hnm
    have h2 : (matchPatterns glob mediaTypes table source skip).2 = skip ++ [source] := by
      unfold matchPatterns
      rw [if_neg hnm]
    constructor
    · unfold matchPatterns
      rw [if_neg hnm]
    · rw [h2]
      unfold matchPatterns
      rw [if_pos (by simp : source ∈ skip ++ [source])]
  · intro hm
    unfold matchPatterns
    rw [if_pos hm]

/-- The scanned set only grows through a `match_patterns` call. -/
theorem mem_matchPatterns_skip (glob : String → String → List String)
    (mediaTypes : List String) (table : List (String × Patterns))
    (s : String) (skip : List String) (d : String) (hd : d ∈ skip) :
    d ∈ (matchPatterns glob mediaTypes table s skip).2 := by
  unfold matchPatterns
  split
  · exact hd
  · simp [hd]

/-- A `match_patterns` call leaves its own source directory in the
scanned set. -/
theorem self_mem_matchPatterns (glob : String → String → List String)
    (mediaTypes : List String) (table : List (String × Patterns))
    (s : String) (skip : List String) :
    s ∈ (matchPatterns glob mediaTypes table s skip).2 := by
  unfold matchPatterns
  split
  · assumption
  · simp

/-- A `match_patterns` call on an already scanned directory yields
nothing and changes nothing. -/
theorem matchPatterns_of_mem (glob : String → String → List String)
    (mediaTypes : List String) (table : List (String × Patterns))
    (s : String) (skip : List String) (h : s ∈ skip) :
    matchPatterns glob mediaTypes table s skip = ([], skip) := by
  unfold matchPatterns
  rw [if_pos h]

/-- The scanned set only grows through a whole run of match calls. -/
theorem mem_runMatches_skip (glob : String → String → List String)
    (mediaTypes : List String) (table : List (String × Patterns)) :
    ∀ (srcs : List String) (skip : List String) (d : String), d ∈ skip →
      d ∈ (runMatches glob mediaTypes table srcs skip).2 := by
  intro srcs
  induction srcs with
  | nil => intro skip d hd; exact hd
  | cons s rest ih =>
    intro skip d hd
    simp only [runMatches]
    exact ih _ d (mem_matchPatterns_skip glob mediaTypes table s skip d hd)

/-- Every match call of a run on a directory that is already in the
scanned set yields the empty sequence. -/
theorem runMatches_scanned_empty (glob : String → String → List String)
    (mediaTypes : List String) (table : List (String × Patterns)) :
    ∀ (srcs : List String) (skip : List String) (d : String) (j : Nat),
      d ∈ skip → j < srcs.length → srcs.getD j "" = d →
      (runMatches glob mediaTypes table srcs skip).1.getD j [] = [] := by
  intro srcs
  induction srcs with
  | nil =>
    intro skip d j _ hj _
    simp at hj
  | cons s rest ih =>
    intro skip d j hd hj hsj
    cases j with
    | zero =>
      have hs : s = d := by simpa using hsj
      simp only [runMatches]
      rw [matchPatterns_of_mem glob mediaTypes table s skip (hs ▸ hd)]
      rfl
    | succ j =>
      have hrest : rest.getD j "" = d := by simpa using hsj
      simp only [runMatches]
      rw [List.getD_cons_succ]
      exact ih _ d j (mem_matchPatterns_skip glob mediaTypes table s skip d hd)
        (by simpa using hj) hrest

/-- C1: within one run, a source directory is pattern-matched at most
once across all match calls of all operation-kind passes: whenever the
same directory occurs at two call positions, the later call yields the
empty sequence, and the directory is in the final scanned set. -/
theorem runMatches_at_most_once :
    ∀ (glob : String → String → List String) (mediaTypes : List String)
      (table : List (String × Patterns)) (sources : List String)
      (skip : List String) (i j : Nat),
      i < j → j < sources.length → sources.getD i "" = sources.getD j "" →
      (runMatches glob mediaTypes table sources skip).1.getD j [] = [] ∧
      sources.getD j "" ∈ (runMatches glob mediaTypes table sources skip).2 := by
  intro glob mediaTypes table sources
  induction sources with
  | nil =>
    intro skip i j _ hj _
    simp at hj
  | cons s rest ih =>
    intro skip i j hij hj heq
    cases j with
    | zero => omega
    | succ j =>
      cases i with
      | zero =>
        have hs : rest.getD j "" = s := by simpa using heq.symm
        have hmem := self_mem_matchPatterns glob mediaTypes table s skip
        constructor
        · simp only [runMatches]
          rw [List.getD_cons_succ]
          exact runMatches_scanned_empty glob mediaTypes table rest _ s j hmem
            (by simpa using hj) hs
        · simp only [runMatches, List.getD_cons_succ]
          rw [hs]
          exact mem_runMatches_skip glob mediaTypes table rest _ s hmem
      | succ i =>
        have hij2 : i < j := by omega
        have hj2 : j < rest.length := by simpa using hj
        have heq2 : rest.getD i "" = rest.getD j "" := by simpa using heq
        have hres := ih (matchPatterns glob mediaTypes table s skip).2 i j hij2 hj2 heq2
        constructor
        · simp only [runMatches]
          rw [List.getD_cons_succ]
          exact hres.1
        · simp only [runMatches, List.getD_cons_succ]
          exact hres.2

/-- Inserting into a list is a permutation of consing. -/
theorem insertLe_perm (le : α → α → Bool) (a : α) :
    ∀ l : List α, (insertLe le a l).Perm (a :: l) := by
  intro l
  induction l with
  | nil => exact List.Perm.refl _
  | cons b bs ih =>
    unfold insertLe
    split
    · exact List.Perm.refl _
    · exact (ih.cons b).trans (List.Perm.swap a b bs)

/-- The insertion sort of `gather_files` is a permutation of its input. -/
theorem sortByLe_perm (le : α → α → Bool) :
    ∀ l : List α, (sortByLe le l).Perm l := by
  intro l
  induction l with
  | nil => exact List.Perm.refl _
  | cons a as ih =>
    exact (insertLe_perm le a (sortByLe le as)).trans (ih.cons a)

/-- Flattening the groups of consecutive equal keys restores the list. -/
theorem groupRuns_flatten (k : α → κ) [DecidableEq κ] :
    ∀ l : List α, (groupRuns k l).flatten = l := by
  intro l
  induction l with
  | nil => rfl
  | cons a rest ih =>
    unfold groupRuns
    cases h : groupRuns k rest with
    | nil =>
      rw [h] at ih
      simp only [List.flatten_nil] at ih
      simp [← ih]
    | cons g gs =>
      cases g with
      | nil =>
        rw [h] at ih
        simp only [List.flatten_cons, List.nil_append] at ih
        simp [← ih]
      | cons b g2 =>
        rw [h] at ih
        simp only [List.flatten_cons] at ih
        by_cases hk : k a = k b
        · show (if k a = k b then (a :: b :: g2) :: gs
              else [a] :: (b :: g2) :: gs).flatten = a :: rest
          rw [if_pos hk]
          simp [← ih]
        · show (if k a = k b then (a :: b :: g2) :: gs
              else [a] :: (b :: g2) :: gs).flatten = a :: rest
          rw [if_neg hk]
          simp [← ih]

/-- Every group of consecutive equal keys is key-homogeneous. -/
theorem groupRuns_sameKey (k : α → κ) [DecidableEq κ] :
    ∀ l : List α, ∀ g ∈ groupRuns k l, ∀ x ∈ g, ∀ y ∈ g, k x = k y := by
  intro l
  induction l with
  | nil =>
    intro g hg
    simp [groupRuns] at hg
  | cons a rest ih =>
    intro g hg x hx y hy
    unfold groupRuns at hg
    cases h : groupRuns k rest with
    | nil =>
      rw [h] at hg
      have hg2 : g ∈ [[a]] := hg
      simp only [List.mem_singleton] at hg2
      subst hg2
      simp only [List.mem_singleton] at hx hy
      rw [hx, hy]
    | cons g1 gs =>
      rw [h] at hg
      cases g1 with
      | nil =>
        have hg2 : g ∈ [a] :: gs := hg
        rcases List.mem_cons.mp hg2 with hga | hgs
        · subst hga
          simp only [List.mem_singleton] at hx hy
          rw [hx, hy]
        · exact ih g (by rw [h]; exact List.mem_cons_of_mem _ hgs) x hx y hy
      | cons b g2 =>
        have hbmem : (b :: g2) ∈ groupRuns k rest := by
          rw [h]
          exact List.mem_cons_self _ _
        have hsame := ih (b :: g2) hbmem
        by_cases hkey : k a = k b
        · have hg2 : g ∈ (a :: b :: g2) :: gs := by
            have hg3 : g ∈ (if k a = k b then (a :: b :: g2) :: gs
                else [a] :: (b :: g2) :: gs) := hg
            rwa [if_pos hkey] at hg3
          rcases List.mem_cons.mp hg2 with hga | hgs
          · subst hga
            have keyx : k x = k a := by
              rcases List.mem_cons.mp hx with hxa | hxg
              · rw [hxa]
              · rw [hsame x hxg b (List.mem_cons_self _ _), ← hkey]
            have keyy : k y = k a := by
              rcases List.mem_cons.mp hy with hya | hyg
              · rw [hya]
              · rw [hsame y hyg b (List.mem_cons_self _ _), ← hkey]
            rw [keyx, keyy]
          · exact ih g (by rw [h]; exact List.mem_cons_of_mem _ hgs) x hx y hy
        · have hg2 : g ∈ [a] :: (b :: g2) :: gs := by
            have hg3 : g ∈ (if k a = k b then (a :: b :: g2) :: gs
                else [a] :: (b :: g2) :: gs) := hg
            rwa [if_neg hkey] at hg3
          rcases List.mem_cons.mp hg2 with hga | hgs
          · subst hga
            simp only [List.mem_singleton] at hx hy
            rw [hx, hy]
          · exact ih g (by rw [h]; exact hgs) x hx y hy

/-- C5: grouping partitions the transfer records: the groups flatten to a
permutation of the input (every record lands in exactly one group exactly
once), and all members of one group share the grouping key. -/
theorem gatherGroups_partition :
    ∀ l : List ItemOp,
      ((gatherGroups l).flatten).Perm l ∧
      ∀ g ∈ gatherGroups l, ∀ x ∈ g, ∀ y ∈ g, groupKey x = groupKey y := by
  intro l
  constructor
  · rw [gatherGroups, groupRuns_flatten]
    exact sortByLe_perm _ l
  · intro g hg
    exact groupRuns_sameKey groupKey (sortedItemops l) g hg

/-- Two paths that are the same file both exist. -/
theorem sameFileB_exists (fs : FS) (p q : String) (h : sameFileB fs p q = true) :
    fsExists fs p = true ∧ fsExists fs q = true := by
  unfold sameFileB at h
  unfold fsExists
  split at h
  · rename_i a b hp hq
    rw [hp, hq]
    exact ⟨rfl, rfl⟩
  · cases h

/-- C4: when source and destination resolve to the same underlying file
(same device and inode), `_handle_file` returns successfully with an
informational log: no filesystem primitive is invoked, the filesystem is
unchanged, and no exception is raised, for every primitive and every
operation kind. -/
theorem handleFile_samefile_skip :
    ∀ (prim : FS → MoveOperation → String → String → Except HandleErr (List PrimCall × FS))
      (fs : FS) (path dest : String) (op : MoveOperation),
      sameFileB fs path dest = true →
      handleFile prim fs path dest op =
        .ok ([LogEntry.infoOperation op path dest, LogEntry.infoSameFile path dest], [], fs) := by
  intro prim fs path dest op hsame
  obtain ⟨hps, hds⟩ := sameFileB_exists fs path dest hsame
  unfold handleFile
  rw [if_pos hds]
  rw [if_neg (by simp [hps])]
  rw [if_pos hsame]

/-- Witness for C4 at a concrete hardlinked pair. -/
theorem handleFile_samefile_skip_instance :
    sameFileB [("a", 5), ("b", 5)] "a" "b" = true ∧
    handleFile copyPrim [("a", 5), ("b", 5)] "a" "b" MoveOperation.move =
      .ok ([LogEntry.infoOperation MoveOperation.move "a" "b",
            LogEntry.infoSameFile "a" "b"], [], [("a", 5), ("b", 5)]) :=
  ⟨by decide,
   handleFile_samefile_skip copyPrim [("a", 5), ("b", 5)] "a" "b" MoveOperation.move (by decide)⟩

/-- C9: an entry whose destination already exists at execution time is
skipped with a warning: no primitive call is recorded for it, the
filesystem it hands to the rest of the batch is unchanged (the source file
is untouched and the existing destination is not overwritten), and no
exception arises from the entry. -/
theorem processItems_dest_exists_skip :
    ∀ (action : FS → String → String → Except HandleErr (List LogEntry × List PrimCall × FS))
      (fs : FS) (s d : String) (rest : List (String × String)),
      fsExists fs s = true → fsExists fs d = true →
      processItems action fs ((s, d) :: rest) =
        ⟨LogEntry.warnDestExists d :: (processItems action fs rest).logs,
         (processItems action fs rest).calls,
         (processItems action fs rest).fs,
         (processItems action fs rest).err⟩ := by
  intro action fs s d rest hs hd
  conv =>
    lhs
    rw [processItems]
  rw [if_neg (by simp [hs])]
  rw [if_pos hd]

/-- Witness for C9 at a concrete filesystem where the destination is
already present. -/
theorem processItems_dest_exists_skip_instance :
    fsExists [("s", 1), ("d", 2)] "s" = true ∧
    fsExists [("s", 1), ("d", 2)] "d" = true ∧
    processItems copyAction [("s", 1), ("d", 2)] [("s", "d")] =
      ⟨[LogEntry.warnDestExists "d"], [], [("s", 1), ("d", 2)], none⟩ :=
  ⟨by decide, by decide,
   (processItems_dest_exists_skip copyAction [("s", 1), ("d", 2)] "s" "d" []
     (by decide) (by decide)).trans (by decide)⟩

/-- The make-unique helper returns a path that does not exist unchanged. -/
theorem uniquePath_of_not_exists (fs : FS) (p : String) (h : fsExists fs p = false) :
    uniquePath fs p = p := by
  unfold uniquePath
  rw [if_pos h]

/-- C10: the batch catches only the domain filesystem error: an action
raising any other exception aborts the pass at that entry, and none of the
remaining entries are processed (no further logs, calls or filesystem
changes). -/
theorem processItems_uncaught_error_aborts :
    ∀ (action : FS → String → String → Except HandleErr (List LogEntry × List PrimCall × FS))
      (fs : FS) (s d : String) (rest : List (String × String)) (e : HandleErr),
      fsExists fs s = true → fsExists fs d = false →
      action fs s d = .error e → isFilesystemErrorB e = false →
      processItems action fs ((s, d) :: rest) = ⟨[], [PrimCall.mkdirall d], fs, some e⟩ := by
  intro action fs s d rest e hs hd hact hfe
  conv =>
    lhs
    rw [processItems]
  rw [if_neg (by simp [hs])]
  rw [if_neg (by simp [hd])]
  rw [uniquePath_of_not_exists fs d hd]
  dsimp only
  rw [hact]
  simp only [hfe]
  rfl

/-- Witness for C10: the sixth operation kind of the host enumeration has
no primitive in `_handle_file`, so its `NotImplementedError` escapes the
batch, and the second pending entry is never processed. -/
theorem processItems_uncaught_error_aborts_instance :
    fsExists exampleFs "a/f.cue" = true ∧
    fsExists exampleFs "dst/f.cue" = false ∧
    isFilesystemErrorB (HandleErr.notImplementedError MoveOperation.reflinkAuto) = false ∧
    processItems autoAction exampleFs [("a/f.cue", "dst/f.cue"), ("b/f.cue", "dst/g.cue")] =
      ⟨[], [PrimCall.mkdirall "dst/f.cue"], exampleFs,
       some (HandleErr.notImplementedError MoveOperation.reflinkAuto)⟩ :=
  ⟨by decide, by decide, by decide,
   processItems_uncaught_error_aborts autoAction exampleFs "a/f.cue" "dst/f.cue"
     [("b/f.cue", "dst/g.cue")] (HandleErr.notImplementedError MoveOperation.reflinkAuto)
     (by decide) (by decide) rfl (by decide)⟩

/-- C2, counterexample: two matched files that resolve to the same
destination path.  The batch places the first file and then skips the
second with a warning: only one copy primitive runs, and no disambiguated
unique path (here `dst/f.1.cue`) is ever created, so the second file is
dropped rather than placed at a unique path. -/
theorem processItems_duplicate_dest_drops_second :
    processItems copyAction exampleFs [("a/f.cue", "dst/f.cue"), ("b/f.cue", "dst/f.cue")] =
      ⟨[LogEntry.infoOperation MoveOperation.copy "a/f.cue" "dst/f.cue",
        LogEntry.warnDestExists "dst/f.cue"],
       [PrimCall.mkdirall "dst/f.cue",
        PrimCall.perform MoveOperation.copy "a/f.cue" "dst/f.cue"],
       [("dst/f.cue", 102), ("a/f.cue", 1), ("b/f.cue", 2)], none⟩ ∧
    fsExists (processItems copyAction exampleFs
      [("a/f.cue", "dst/f.cue"), ("b/f.cue", "dst/f.cue")]).fs "dst/f.1.cue" = false := by
  constructor
  · decide
  · decide

/-- C2, amended: when two pending files resolve to the same destination,
the first is placed there and the second is skipped with a warning and
dropped — its source is left untouched, the first file's copy is not
overwritten, and no exception arises; the make-unique helper never
produces a disambiguated name, because it only runs on destinations that
did not exist. -/
theorem processItems_duplicate_dest_skips_second :
    ∀ (action : FS → String → String → Except HandleErr (List LogEntry × List PrimCall × FS))
      (fs : FS) (s1 s2 d : String) (rest : List (String × String))
      (logs1 : List LogEntry) (calls1 : List PrimCall) (fs1 : FS),
      fsExists fs s1 = true → fsExists fs d = false →
      action fs s1 d = .ok (logs1, calls1, fs1) →
      fsExists fs1 s2 = true → fsExists fs1 d = true →
      processItems action fs ((s1, d) :: (s2, d) :: rest) =
        ⟨logs1 ++ LogEntry.warnDestExists d :: (processItems action fs1 rest).logs,
         PrimCall.mkdirall d :: calls1 ++ (processItems action fs1 rest).calls,
         (processItems action fs1 rest).fs,
         (processItems action fs1 rest).err⟩ := by
  intro action fs s1 s2 d rest logs1 calls1 fs1 hs1 hd hact hs2 hd2
  have hsecond := processItems_dest_exists_skip action fs1 s2 d rest hs2 hd2
  conv =>
    lhs
    rw [processItems]
  rw [if_neg (by simp [hs1])]
  rw [if_neg (by simp [hd])]
  rw [uniquePath_of_not_exists fs d hd]
  dsimp only
  rw [hact]
  dsimp only
  rw [hsecond]

/-- Witness for the amended C2 at the concrete duplicate-destination
batch. -/
theorem processItems_duplicate_dest_skips_second_instance :
    processItems copyAction exampleFs [("a/f.cue", "dst/f.cue"), ("b/f.cue", "dst/f.cue")] =
      ⟨[LogEntry.infoOperation MoveOperation.copy "a/f.cue" "dst/f.cue",
        LogEntry.warnDestExists "dst/f.cue"],
       [PrimCall.mkdirall "dst/f.cue",
        PrimCall.perform MoveOperation.copy "a/f.cue" "dst/f.cue"],
       [("dst/f.cue", 102), ("a/f.cue", 1), ("b/f.cue", 2)], none⟩ :=
  (processItems_duplicate_dest_skips_second copyAction exampleFs "a/f.cue" "b/f.cue"
    "dst/f.cue" []
    [LogEntry.infoOperation MoveOperation.copy "a/f.cue" "dst/f.cue"]
    [PrimCall.perform MoveOperation.copy "a/f.cue" "dst/f.cue"]
    [("dst/f.cue", 102), ("a/f.cue", 1), ("b/f.cue", 2)]
    (by decide) (by decide) rfl (by decide) (by decide)).trans (by decide)

/-- Witness for C1: in a run whose call sequence visits `src`, then
another directory, then `src` again, the third call yields nothing and
`src` ends up in the scanned set. -/
theorem runMatches_at_most_once_instance :
    (runMatches exampleGlob ["mp3"] exampleTable ["src", "dirB", "src"] []).1.getD 2 [] = [] ∧
    "src" ∈ (runMatches exampleGlob ["mp3"] exampleTable ["src", "dirB", "src"] []).2 :=
  runMatches_at_most_once exampleGlob ["mp3"] exampleTable ["src", "dirB", "src"] [] 0 2
    (by decide) (by decide) (by decide)

/-- Witness for C5 at a concrete three-record input with two albums. -/
theorem gatherGroups_partition_instance :
    ((gatherGroups [(⟨"ar", "", "al"⟩, "s1", "d1"), (⟨"br", "aa", "al"⟩, "s2", "d2"),
        (⟨"ar", "", "al"⟩, "s3", "d3")]).flatten).Perm
      [(⟨"ar", "", "al"⟩, "s1", "d1"), (⟨"br", "aa", "al"⟩, "s2", "d2"),
        (⟨"ar", "", "al"⟩, "s3", "d3")] ∧
    groupKey ((⟨"ar", "", "al"⟩, "s1", "d1") : ItemOp) =
      groupKey ((⟨"ar", "", "al"⟩, "s3", "d3") : ItemOp) :=
  ⟨(gatherGroups_partition [(⟨"ar", "", "al"⟩, "s1", "d1"), (⟨"br", "aa", "al"⟩, "s2", "d2"),
      (⟨"ar", "", "al"⟩, "s3", "d3")]).1,
   (gatherGroups_partition [(⟨"ar", "", "al"⟩, "s1", "d1"), (⟨"br", "aa", "al"⟩, "s2", "d2"),
      (⟨"ar", "", "al"⟩, "s3", "d3")]).2
     [(⟨"ar", "", "al"⟩, "s1", "d1"), (⟨"ar", "", "al"⟩, "s3", "d3")] (by decide)
     (⟨"ar", "", "al"⟩, "s1", "d1") (by decide)
     (⟨"ar", "", "al"⟩, "s3", "d3") (by decide)⟩

/-- Witness for C6 at a concrete matched file. -/
theorem matchPatterns_excludes_media_types_instance :
    (pathSuffix "src/foo.cue").drop 1 ∉ ["mp3"] :=
  matchPatterns_excludes_media_types exampleGlob ["mp3"] exampleTable "src" []
    ("src/foo.cue", "cue") (by decide) (by decide)

/-- Witness for C8 at a concrete directory and the empty scanned set: the
first call yields the full scan, the repeated call yields nothing, and a
call on an already scanned directory changes nothing. -/
theorem matchPatterns_idempotent_instance :
    ((matchPatterns exampleGlob ["mp3"] exampleTable "src" []).1 =
      scanMatches exampleGlob ["mp3"] exampleTable "src" ∧
    matchPatterns exampleGlob ["mp3"] exampleTable "src"
        (matchPatterns exampleGlob ["mp3"] exampleTable "src" []).2 =
      ([], (matchPatterns exampleGlob ["mp3"] exampleTable "src" []).2)) ∧
    matchPatterns exampleGlob ["mp3"] exampleTable "src" ["src"] = ([], ["src"]) :=
  ⟨(matchPatterns_idempotent exampleGlob ["mp3"] exampleTable "src" []).1 (by decide),
   (matchPatterns_idempotent exampleGlob ["mp3"] exampleTable "src" ["src"]).2 (by decide)⟩
